import Mathlib

/-!
Verification of the persistent storage and retention engine of the
clipboard-history manager (src/storage.py), as a shallow embedding.

The SQLite database is modelled as lists of rows; each `Storage` method is
translated into a pure function on that state.  SQL semantics that matter
here and are modelled faithfully:

* `AUTOINCREMENT` primary keys: a strictly increasing counter per table.
* The `UNIQUE` constraint on `groups.name`: an `INSERT`/`UPDATE` that would
  create a duplicate fails (statement aborted, state unchanged).
* `LIKE` is ASCII-case-insensitive by default (no `case_sensitive_like`
  pragma is set by the code); `%` matches any sequence, `_` any one char.
* `LOWER` folds only ASCII `A`-`Z`.
* `FOREIGN KEY` clauses are NOT enforced (the code never sets
  `PRAGMA foreign_keys=ON`), so inserts/updates may dangle.
* `ORDER BY` with `CASE WHEN ... END` keys: a `NULL` key sorts first under
  `ASC` and last under `DESC`; inside a block of rows with equal `pinned`
  the `CASE` keys of the other block are all `NULL`, i.e. equal, so they
  are encoded as the constant 0 there.
-/

namespace Storage

/-- BLOB payloads, as byte lists. -/
abbrev Blob := List Nat

/-- Row of the `groups` table (id PK AUTOINCREMENT, name UNIQUE NOT NULL,
position). -/
structure Group where
  id : Nat
  name : String
  position : Int
  deriving DecidableEq

/-- Row of the `items` table. -/
structure Item where
  id : Nat
  content : String
  content_type : String
  content_text : String
  content_blob : Option Blob
  preview_text : Option String
  preview_blob : Option Blob
  created_at : Int
  last_used_at : Option Int
  pinned : Bool
  pinned_at : Option Int
  group_id : Nat
  deriving DecidableEq

/-- Row of the `subitems` table.  `icons` is stored by the code as a JSON
array of strings (`json.dumps(icons or [])`); the decoded list is kept
here, the JSON spelling being a pure representation detail. -/
structure Subitem where
  id : Nat
  item_id : Nat
  text : String
  icons : List String
  tag : Option String
  created_at : Int
  deriving DecidableEq

/-- The database state: the three tables plus the AUTOINCREMENT counters. -/
structure DB where
  groups : List Group
  items : List Item
  subitems : List Subitem
  next_group_id : Nat
  next_item_id : Nat
  next_subitem_id : Nat
  deriving DecidableEq

/-- A fresh database file, before `_init_schema` runs. -/
def emptyDB : DB :=
  { groups := [], items := [], subitems := [],
    next_group_id := 1, next_item_id := 1, next_subitem_id := 1 }

/-- Errors surfaced by the engine: `sqlite3.IntegrityError` on a UNIQUE
violation, and the Python `TypeError` raised by `update_preview`. -/
inductive Err where
  | uniqueViolation
  | typeError
  deriving DecidableEq

/-- SQL `COALESCE(a, b)` for a nullable integer column. -/
def coalesce (a : Option Int) (b : Int) : Int := a.getD b

/-- `DEFAULT_MAX_STORAGE_PER_GROUP` (storage.py line 8). -/
def DEFAULT_MAX_STORAGE_PER_GROUP : Int := 300

/-- The cap actually stored by `Storage.__init__` (storage.py line 14):
`int(m) if m and m > 0 else DEFAULT_MAX_STORAGE_PER_GROUP`.  In Python,
`m and m > 0` is truthy exactly when `m > 0`, so any non-positive
configured value is replaced by the default 300. -/
def effective_cap (max_items_per_group : Int) : Int :=
  if 0 < max_items_per_group then max_items_per_group
  else DEFAULT_MAX_STORAGE_PER_GROUP

/-- `get_group_by_name`: `SELECT id, name FROM groups WHERE name=?`. -/
def get_group_by_name (db : DB) (name : String) : Option Group :=
  db.groups.find? (fun g => g.name == name)

/-- `create_group`: computes `COALESCE(MAX(position), 0) + 1`, then
`INSERT INTO groups (name, position)`; the UNIQUE constraint on `name`
makes the insert fail on a duplicate, leaving the table unchanged. -/
def create_group (db : DB) (name : String) : Except Err (DB × Nat) :=
  if db.groups.any (fun g => g.name == name) then
    .error .uniqueViolation
  else
    let next_pos : Int := ((db.groups.map (fun g => g.position)).max?.getD 0) + 1
    let g : Group := { id := db.next_group_id, name := name, position := next_pos }
    .ok ({ db with groups := db.groups ++ [g],
                   next_group_id := db.next_group_id + 1 },
         db.next_group_id)

/-- `rename_group`: `UPDATE groups SET name=? WHERE id=?`.  With no row
matching the id the update is a silent no-op; renaming to a name held by
another row violates the UNIQUE constraint and aborts the statement. -/
def rename_group (db : DB) (group_id : Nat) (name : String) : Except Err DB :=
  if db.groups.all (fun g => g.id != group_id) then
    .ok db
  else if db.groups.any (fun g => g.name == name && g.id != group_id) then
    .error .uniqueViolation
  else
    .ok { db with groups := (db.groups.map
            (fun g => if g.id == group_id then { g with name := name } else g)) }

/-- `delete_group`: deletes the subitems of the group's items, then the
items, then the group row itself (storage.py lines 166-175). -/
def delete_group (db : DB) (group_id : Nat) : DB :=
  let victimIds := (db.items.filter (fun it => it.group_id == group_id)).map (fun it => it.id)
  { db with
    subitems := db.subitems.filter (fun s => !(victimIds.contains s.item_id)),
    items := db.items.filter (fun it => it.group_id != group_id),
    groups := db.groups.filter (fun g => g.id != group_id) }

/-- `delete_item`: `DELETE FROM subitems WHERE item_id=?` then
`DELETE FROM items WHERE id=?`. -/
def delete_item (db : DB) (item_id : Nat) : DB :=
  { db with
    subitems := db.subitems.filter (fun s => s.item_id != item_id),
    items := db.items.filter (fun it => it.id != item_id) }

/-- The freshness key `COALESCE(last_used_at, created_at)`. -/
def useTime (it : Item) : Int := coalesce it.last_used_at it.created_at

/-- Row order of the prune query
`ORDER BY COALESCE(last_used_at, created_at) DESC, id DESC`. -/
def pruneLe (a b : Item) : Prop :=
  useTime b < useTime a ∨ (useTime b = useTime a ∧ b.id ≤ a.id)

instance : DecidableRel pruneLe := fun a b =>
  inferInstanceAs (Decidable (_ ∨ _))

/-- `_prune_group_items` (storage.py lines 456-474): a non-positive limit
returns immediately; otherwise the unpinned items of the group are listed
stalest-last and every id beyond the `limit`-th position is deleted via
`delete_item`. -/
def prune_group_items (db : DB) (group_id : Nat) (limit : Int) : DB :=
  if limit ≤ 0 then db
  else
    let ids := (List.insertionSort pruneLe
        (db.items.filter (fun it => it.group_id == group_id && !it.pinned))).map
        (fun it => it.id)
    if (ids.length : Int) ≤ limit then db
    else (ids.drop limit.toNat).foldl delete_item db

/-- `add_item`: inserts with `content = content_text`, `pinned = 0`,
`pinned_at = NULL`, then synchronously prunes the target group with the
stored cap; returns the fresh id. -/
def add_item (db : DB) (content_type content_text : String)
    (content_blob : Option Blob) (preview_text : Option String)
    (preview_blob : Option Blob) (created_at : Int) (group_id : Nat)
    (cap : Int) : DB × Nat :=
  let it : Item :=
    { id := db.next_item_id, content := content_text,
      content_type := content_type, content_text := content_text,
      content_blob := content_blob, preview_text := preview_text,
      preview_blob := preview_blob, created_at := created_at,
      last_used_at := none, pinned := false, pinned_at := none,
      group_id := group_id }
  let db1 := { db with items := db.items ++ [it],
                       next_item_id := db.next_item_id + 1 }
  (prune_group_items db1 group_id cap, db.next_item_id)

/-- `set_pinned`: reads the row's `group_id` first, updates
`pinned`/`pinned_at` (`pinned_at` becomes now when pinning, NULL when
unpinning), and re-prunes the group only when the row existed and the
operation was an unpin. -/
def set_pinned (db : DB) (item_id : Nat) (pinned : Bool) (now : Int)
    (cap : Int) : DB :=
  let row := db.items.find? (fun it => it.id == item_id)
  let pin_ts : Option Int := if pinned then some now else none
  let db1 := { db with items := (db.items.map
      (fun it => if it.id == item_id then
          { it with pinned := pinned, pinned_at := pin_ts } else it)) }
  match row with
  | some it => if pinned then db1 else prune_group_items db1 it.group_id cap
  | none => db1

/-- `move_item_to_group`: reassigns `group_id`, then prunes the
destination group. -/
def move_item_to_group (db : DB) (item_id group_id : Nat) (cap : Int) : DB :=
  let db1 := { db with items := (db.items.map
      (fun it => if it.id == item_id then { it with group_id := group_id } else it)) }
  prune_group_items db1 group_id cap

/-- `touch_item_last_used`: `UPDATE items SET last_used_at=? WHERE id=?`. -/
def touch_item_last_used (db : DB) (item_id : Nat) (ts : Int) : DB :=
  { db with items := (db.items.map
      (fun it => if it.id == item_id then { it with last_used_at := some ts } else it)) }

/-- `add_subitem`: inserts the row (icons defaulting to the empty list,
`created_at` filled by the column's now() default) and returns its id. -/
def add_subitem (db : DB) (item_id : Nat) (text : String)
    (icons : Option (List String)) (tag : Option String) (now : Int) :
    DB × Nat :=
  let s : Subitem :=
    { id := db.next_subitem_id, item_id := item_id, text := text,
      icons := icons.getD [], tag := tag, created_at := now }
  ({ db with subitems := db.subitems ++ [s],
             next_subitem_id := db.next_subitem_id + 1 },
   db.next_subitem_id)

/-- `delete_subitem`: guarded by `if subitem_id is None or subitem_id < 0`. -/
def delete_subitem (db : DB) (subitem_id : Int) : DB :=
  if subitem_id < 0 then db
  else { db with subitems := (db.subitems.filter
          (fun s => (s.id : Int) != subitem_id)) }

/-- SQLite ASCII lower-casing, as used by `LOWER` and by `LIKE`: only the
byte range 65-90 (`A`-`Z`) is folded. -/
def asciiLower (c : Char) : Char :=
  if 65 ≤ c.toNat ∧ c.toNat ≤ 90 then Char.ofNat (c.toNat + 32) else c

/-- The predicate `LOWER(tag) = LOWER(?)` of `delete_subitems_by_tag`.  A
NULL stored tag never matches (`LOWER(NULL)` is NULL, and a NULL
comparison is not true). -/
def tag_matches (stored : Option String) (tag : String) : Bool :=
  match stored with
  | some t => t.data.map asciiLower == tag.data.map asciiLower
  | none => false

/-- `delete_subitems_by_tag`: `if not tag: return` makes the empty tag a
no-op; otherwise `DELETE FROM subitems WHERE item_id=? AND
LOWER(tag)=LOWER(?)`. -/
def delete_subitems_by_tag (db : DB) (item_id : Nat) (tag : String) : DB :=
  if tag == "" then db
  else { db with subitems := db.subitems.filter (fun s =>
    !(s.item_id == item_id && tag_matches s.tag tag)) }

/-- SQLite `LIKE` character step: `_` matches any single character, any
other pattern character matches up to ASCII case. -/
def likeCharMatch (p c : Char) : Bool :=
  p == '_' || asciiLower p == asciiLower c

/-- SQLite `LIKE` on character lists: `%` matches any (possibly empty)
suffix-producing sequence, `_` one character, others fold ASCII case. -/
def likeMatch : List Char → List Char → Bool
  | [], s => s.isEmpty
  | p :: ps, s =>
    if p == '%' then s.tails.any (fun t => likeMatch ps t)
    else
      match s with
      | [] => false
      | c :: cs => likeCharMatch p c && likeMatch ps cs

/-- SQLite `LIKE` on strings. -/
def sqlite_like (pattern s : String) : Bool := likeMatch pattern.data s.data

/-- The WHERE clause of `list_items`: group filter when a group id is
given, and `content_text LIKE '%' || query || '%'` when the query is
given and non-empty (Python `if query:` treats the empty string as
absent). -/
def itemPasses (group_id : Option Nat) (query : Option String) (it : Item) :
    Bool :=
  (match group_id with
   | some g => it.group_id == g
   | none => true) &&
  (match query with
   | some q => if q == "" then true
               else sqlite_like ("%" ++ q ++ "%") it.content_text
   | none => true)

/-- The ORDER BY key of `list_items`, encoded as a five-component
lexicographic key (see the header comment on NULL sorting: within a block
of equal `pinned` the other block's CASE keys are all NULL, encoded 0):
`pinned DESC`,
`CASE WHEN pinned=1 THEN COALESCE(pinned_at, created_at) END ASC`,
`CASE WHEN pinned=1 THEN id END ASC`,
`CASE WHEN pinned=0 THEN COALESCE(last_used_at, created_at) END DESC`,
`CASE WHEN pinned=0 THEN id END DESC`. -/
def sortKey (it : Item) : Int × Int × Int × Int × Int :=
  (if it.pinned then 0 else 1,
   if it.pinned then coalesce it.pinned_at it.created_at else 0,
   if it.pinned then (it.id : Int) else 0,
   if it.pinned then 0 else -(useTime it),
   if it.pinned then 0 else -(it.id : Int))

/-- Lexicographic order on the five-component key. -/
def lexLe5 (x y : Int × Int × Int × Int × Int) : Prop :=
  x.1 < y.1 ∨ (x.1 = y.1 ∧
    (x.2.1 < y.2.1 ∨ (x.2.1 = y.2.1 ∧
      (x.2.2.1 < y.2.2.1 ∨ (x.2.2.1 = y.2.2.1 ∧
        (x.2.2.2.1 < y.2.2.2.1 ∨ (x.2.2.2.1 = y.2.2.2.1 ∧
          x.2.2.2.2 ≤ y.2.2.2.2)))))))

instance (x y : Int × Int × Int × Int × Int) : Decidable (lexLe5 x y) :=
  inferInstanceAs (Decidable (_ ∨ _))

/-- Row order of the `list_items` query. -/
def itemLe (a b : Item) : Prop := lexLe5 (sortKey a) (sortKey b)

instance : DecidableRel itemLe := fun a b =>
  inferInstanceAs (Decidable (lexLe5 _ _))

/-- A row produced by the `list_items` SELECT. -/
structure Row where
  id : Nat
  content : String
  content_type : String
  content_text : String
  content_blob : Option Blob
  preview_text : Option String
  preview_blob : Option Blob
  content_length : Nat
  last_used_at : Option Int
  created_at : Int
  pinned : Bool
  pinned_at : Option Int
  group_id : Nat
  has_full_content : Bool
  deriving DecidableEq

/-- The SELECT list of `list_items`: in `previews_only` mode the CASE
expressions of storage.py lines 267-290 substitute preview fields;
otherwise the raw columns are returned with `has_full_content = 1`. -/
def selectRow (previews_only : Bool) (it : Item) : Row :=
  if previews_only then
    { id := it.id, content := it.content, content_type := it.content_type,
      content_text :=
        if it.content_type == "drawio" then it.content_text
        else it.preview_text.getD it.content_text,
      content_blob :=
        if it.content_type == "html" then it.content_blob
        else if it.preview_blob.isNone then it.content_blob
        else none,
      preview_text := it.preview_text, preview_blob := it.preview_blob,
      content_length := it.content_text.length,
      last_used_at := it.last_used_at, created_at := it.created_at,
      pinned := it.pinned, pinned_at := it.pinned_at,
      group_id := it.group_id,
      has_full_content :=
        if it.content_type == "html" then true
        else it.preview_blob.isNone && it.preview_text.isNone }
  else
    { id := it.id, content := it.content, content_type := it.content_type,
      content_text := it.content_text, content_blob := it.content_blob,
      preview_text := it.preview_text, preview_blob := it.preview_blob,
      content_length := it.content_text.length,
      last_used_at := it.last_used_at, created_at := it.created_at,
      pinned := it.pinned, pinned_at := it.pinned_at,
      group_id := it.group_id, has_full_content := true }

/-- `list_items` (storage.py lines 263-340): filter, order, project. -/
def list_items (db : DB) (group_id : Option Nat) (query : Option String)
    (previews_only : Bool) : List Row :=
  (List.insertionSort itemLe
      (db.items.filter (itemPasses group_id query))).map
    (selectRow previews_only)

/-- `update_preview` (storage.py lines 476-494): the guard
`if "xxx" in preview_text` dereferences `preview_text` before the UPDATE,
so a `None` preview text raises `TypeError` with no write performed; the
string membership test itself only prints. -/
def update_preview (db : DB) (item_id : Nat) (preview_text : Option String)
    (preview_blob : Option Blob) : Except Err DB :=
  match preview_text with
  | none => .error .typeError
  | some t =>
    .ok { db with items := (db.items.map
        (fun it => if it.id == item_id then
            { it with preview_text := some t, preview_blob := preview_blob }
          else it)) }

/-- The Default-group bootstrap at the end of `_init_schema` (storage.py
lines 60-61): `if not self.get_group_by_name("Default"): self.create_group("Default")`. -/
def init_default_group (db : DB) : DB :=
  if (get_group_by_name db "Default").isSome then db
  else
    match create_group db "Default" with
    | .ok (db1, _) => db1
    | .error _ => db

/-- The schema-initialized state of a fresh database file. -/
def freshDB : DB := init_default_group emptyDB

/-- The caller-side guard `Backend.deleteGroup` (qml_backend.py lines
1108-1115): negative ids are ignored, the Default group is refused
(`_is_default_group` compares against `get_group_by_name("Default")`),
anything else is forwarded to `Storage.delete_group`. -/
def backend_deleteGroup (db : DB) (group_id : Int) : DB :=
  if group_id < 0 then db
  else if (match get_group_by_name db "Default" with
           | some g => ((g.id : Int) == group_id : Bool)
           | none => false) then db
  else delete_group db group_id.toNat

end Storage

namespace Storage

/-- One mutating call of the storage interface, with every
environment-supplied value (timestamps) made explicit. -/
inductive Op where
  | createGroup (name : String)
  | renameGroup (group_id : Nat) (name : String)
  | deleteGroup (group_id : Nat)
  | addItem (content_type content_text : String) (content_blob : Option Blob)
      (preview_text : Option String) (preview_blob : Option Blob)
      (created_at : Int) (group_id : Nat)
  | setPinned (item_id : Nat) (pinned : Bool) (now : Int)
  | moveItem (item_id group_id : Nat)
  | touchItem (item_id : Nat) (ts : Int)
  | deleteItem (item_id : Nat)
  | addSubitem (item_id : Nat) (text : String) (icons : Option (List String))
      (tag : Option String) (now : Int)
  | deleteSubitem (subitem_id : Int)
  | deleteSubitemsByTag (item_id : Nat) (tag : String)
  | updatePreview (item_id : Nat) (preview_text : Option String)
      (preview_blob : Option Blob)
  deriving DecidableEq

/-- Effect of one call on the stored state; `cap` is the engine's stored
`max_items_per_group`.  A call that raises (duplicate name, `TypeError`)
leaves the database unchanged: the failing statement was aborted before
its commit. -/
def applyOp (cap : Int) (db : DB) : Op → DB
  | .createGroup name =>
    match create_group db name with
    | .ok (db1, _) => db1
    | .error _ => db
  | .renameGroup gid name =>
    match rename_group db gid name with
    | .ok db1 => db1
    | .error _ => db
  | .deleteGroup gid => delete_group db gid
  | .addItem ct ctext cblob ptext pblob created gid =>
    (add_item db ct ctext cblob ptext pblob created gid cap).1
  | .setPinned i p now => set_pinned db i p now cap
  | .moveItem i gid => move_item_to_group db i gid cap
  | .touchItem i ts => touch_item_last_used db i ts
  | .deleteItem i => delete_item db i
  | .addSubitem i text icons tag now => (add_subitem db i text icons tag now).1
  | .deleteSubitem sid => delete_subitem db sid
  | .deleteSubitemsByTag i tag => delete_subitems_by_tag db i tag
  | .updatePreview i ptext pblob =>
    match update_preview db i ptext pblob with
    | .ok db1 => db1
    | .error _ => db

/-- A whole call sequence. -/
def applyOps (cap : Int) (db : DB) (ops : List Op) : DB :=
  ops.foldl (applyOp cap) db

/-- Number of unpinned items stored in group `g`. -/
def countUnpinned (db : DB) (g : Nat) : Nat :=
  db.items.countP (fun it => it.group_id == g && !it.pinned)

/-- Well-formedness delivered by AUTOINCREMENT: item ids are distinct and
below the counter. -/
def WF (db : DB) : Prop :=
  (db.items.map (fun it => it.id)).Nodup ∧
  ∀ it ∈ db.items, it.id < db.next_item_id

instance (db : DB) : Decidable (WF db) :=
  inferInstanceAs (Decidable (_ ∧ _))

/-- Referential integrity: every subitem points at a stored item and every
item at a stored group. -/
def NoOrphans (db : DB) : Prop :=
  (∀ s ∈ db.subitems, ∃ it ∈ db.items, it.id = s.item_id) ∧
  (∀ it ∈ db.items, ∃ g ∈ db.groups, g.id = it.group_id)

instance (db : DB) : Decidable (NoOrphans db) :=
  inferInstanceAs (Decidable (_ ∧ _))

/-- The referential precondition the storage layer itself never checks
(FOREIGN KEYs are unenforced): creation and move calls must name existing
parents. -/
def ValidOp (db : DB) : Op → Prop
  | .addItem _ _ _ _ _ _ gid => ∃ g ∈ db.groups, g.id = gid
  | .moveItem _ gid => ∃ g ∈ db.groups, g.id = gid
  | .addSubitem i _ _ _ _ => ∃ it ∈ db.items, it.id = i
  | _ => True

instance (db : DB) (op : Op) : Decidable (ValidOp db op) := by
  cases op <;> simp only [ValidOp] <;> infer_instance

/-- Every call of the trace satisfies `ValidOp` in the state it runs in. -/
def ValidTrace (cap : Int) : DB → List Op → Prop
  | _, [] => True
  | db, op :: ops => ValidOp db op ∧ ValidTrace cap (applyOp cap db op) ops

instance (cap : Int) (db : DB) (ops : List Op) :
    Decidable (ValidTrace cap db ops) := by
  induction ops generalizing db with
  | nil => exact inferInstanceAs (Decidable True)
  | cons op ops ih =>
    have := ih (applyOp cap db op)
    exact inferInstanceAs (Decidable (_ ∧ _))

/-- The tag-replace idiom of the backend (qml_backend.py lines 1665-1666):
`delete_subitems_by_tag` then `add_subitem` with that tag and no icons. -/
def replace_subitem_by_tag (db : DB) (item_id : Nat) (text tag : String)
    (now : Int) : DB :=
  (add_subitem (delete_subitems_by_tag db item_id tag) item_id text none
    (some tag) now).1

/-- The pin time a pinned row is ordered by:
`COALESCE(pinned_at, created_at)`.  The engine sets `pinned_at` on every
pin and the migration backfills `pinned_at = created_at` for legacy pinned
rows, so this is the row's pin timestamp. -/
def pinTime (r : Row) : Int := coalesce r.pinned_at r.created_at

/-- The freshness key of an output row: `COALESCE(last_used_at, created_at)`. -/
def rowUseTime (r : Row) : Int := coalesce r.last_used_at r.created_at

/-- The ordering contract of `list_items` between two output rows `a`
before `b`: pinned rows precede unpinned rows; pinned rows ascend by pin
time with ties broken by ascending id; unpinned rows descend by
last-used-or-created time with ties broken by descending id. -/
def rowOrder (a b : Row) : Prop :=
  (a.pinned = true ∧ b.pinned = false) ∨
  (a.pinned = true ∧ b.pinned = true ∧
    (pinTime a < pinTime b ∨ (pinTime a = pinTime b ∧ a.id ≤ b.id))) ∨
  (a.pinned = false ∧ b.pinned = false ∧
    (rowUseTime b < rowUseTime a ∨ (rowUseTime b = rowUseTime a ∧ b.id ≤ a.id)))

instance (a b : Row) : Decidable (rowOrder a b) :=
  inferInstanceAs (Decidable (_ ∨ _))

/-- A plain unpinned text item, for concrete states. -/
def mkItem (i g : Nat) (text : String) (created : Int) : Item :=
  { id := i, content := text, content_type := "text", content_text := text,
    content_blob := none, preview_text := none, preview_blob := none,
    created_at := created, last_used_at := none, pinned := false,
    pinned_at := none, group_id := g }

/-- A database whose Default group holds `n` unpinned items with strictly
decreasing `created_at` (item 1 freshest). -/
def bulkDB (n : Nat) : DB :=
  { groups := [{ id := 1, name := "Default", position := 1 }],
    items := (List.range n).map (fun k => mkItem (k + 1) 1 "x" (1000 - ((k : Int) + 1))),
    subitems := [], next_group_id := 2, next_item_id := n + 1,
    next_subitem_id := 1 }

/-- Default group plus one unpinned item. -/
def oneItemDB : DB :=
  { groups := [{ id := 1, name := "Default", position := 1 }],
    items := [mkItem 1 1 "x" 5],
    subitems := [], next_group_id := 2, next_item_id := 2,
    next_subitem_id := 1 }

/-- Default group plus one item whose text is upper-case `ABC`. -/
def upperDB : DB :=
  { groups := [{ id := 1, name := "Default", position := 1 }],
    items := [mkItem 1 1 "ABC" 5],
    subitems := [], next_group_id := 2, next_item_id := 2,
    next_subitem_id := 1 }

/-- Two named groups, no items. -/
def twoGroupDB : DB :=
  { groups := [{ id := 1, name := "Default", position := 1 },
               { id := 2, name := "Work", position := 2 }],
    items := [], subitems := [], next_group_id := 3, next_item_id := 1,
    next_subitem_id := 1 }

end Storage

namespace Storage

/-! Effect of the prune deletion loop. -/

theorem foldl_delete_items (L : List Nat) (db : DB) :
    (L.foldl delete_item db).items
      = db.items.filter (fun it => decide (it.id ∉ L)) := by
  induction L generalizing db with
  | nil => simp
  | cons a L ih =>
    rw [List.foldl_cons, ih]
    show (db.items.filter _).filter _ = _
    rw [List.filter_filter]
    apply List.filter_congr
    intro it _
    by_cases h : it.id = a <;> simp [h, List.mem_cons, not_or, Bool.and_comm]

theorem foldl_delete_subitems (L : List Nat) (db : DB) :
    (L.foldl delete_item db).subitems
      = db.subitems.filter (fun s => decide (s.item_id ∉ L)) := by
  induction L generalizing db with
  | nil => simp
  | cons a L ih =>
    rw [List.foldl_cons, ih]
    show (db.subitems.filter _).filter _ = _
    rw [List.filter_filter]
    apply List.filter_congr
    intro s _
    by_cases h : s.item_id = a <;> simp [h, List.mem_cons, not_or, Bool.and_comm]

theorem foldl_delete_groups (L : List Nat) (db : DB) :
    (L.foldl delete_item db).groups = db.groups := by
  induction L generalizing db with
  | nil => simp
  | cons a L ih => rw [List.foldl_cons, ih]; rfl

theorem foldl_delete_next_item (L : List Nat) (db : DB) :
    (L.foldl delete_item db).next_item_id = db.next_item_id := by
  induction L generalizing db with
  | nil => simp
  | cons a L ih => rw [List.foldl_cons, ih]; rfl

/-! Structure of `_prune_group_items`. -/

/-- Either pruning does nothing, or it folds `delete_item` over a list of
ids each of which belongs to an unpinned item of the pruned group. -/
theorem prune_spec (db : DB) (g : Nat) (l : Int) :
    prune_group_items db g l = db ∨
    ∃ L : List Nat,
      (∀ i ∈ L, ∃ it ∈ db.items,
          it.group_id = g ∧ it.pinned = false ∧ it.id = i) ∧
      prune_group_items db g l = L.foldl delete_item db := by
  unfold prune_group_items
  split
  · exact Or.inl rfl
  · dsimp only
    split
    · exact Or.inl rfl
    · refine Or.inr ⟨_, ?_, rfl⟩
      intro i hi
      have hi2 : i ∈ (List.insertionSort pruneLe
          (db.items.filter (fun it => it.group_id == g && !it.pinned))).map
          (fun it => it.id) := List.mem_of_mem_drop hi
      rcases List.mem_map.1 hi2 with ⟨it, hit, rfl⟩
      have hmem : it ∈ db.items.filter (fun it => it.group_id == g && !it.pinned) :=
        (List.perm_insertionSort pruneLe _).mem_iff.1 hit
      rcases List.mem_filter.1 hmem with ⟨hdb, hp⟩
      simp only [Bool.and_eq_true, beq_iff_eq, Bool.not_eq_true'] at hp
      exact ⟨it, hdb, hp.1, hp.2, rfl⟩

theorem prune_items_sublist (db : DB) (g : Nat) (l : Int) :
    (prune_group_items db g l).items.Sublist db.items := by
  rcases prune_spec db g l with h | ⟨L, _, h⟩
  · rw [h]
  · rw [h, foldl_delete_items]; exact List.filter_sublist _

theorem prune_subitems_sublist (db : DB) (g : Nat) (l : Int) :
    (prune_group_items db g l).subitems.Sublist db.subitems := by
  rcases prune_spec db g l with h | ⟨L, _, h⟩
  · rw [h]
  · rw [h, foldl_delete_subitems]; exact List.filter_sublist _

theorem prune_groups_eq (db : DB) (g : Nat) (l : Int) :
    (prune_group_items db g l).groups = db.groups := by
  rcases prune_spec db g l with h | ⟨L, _, h⟩
  · rw [h]
  · rw [h, foldl_delete_groups]

theorem prune_next_item_eq (db : DB) (g : Nat) (l : Int) :
    (prune_group_items db g l).next_item_id = db.next_item_id := by
  rcases prune_spec db g l with h | ⟨L, _, h⟩
  · rw [h]
  · rw [h, foldl_delete_next_item]

/-- Pruning never deletes a pinned item (given the AUTOINCREMENT
uniqueness of ids): the deletion loop only visits ids of unpinned rows. -/
theorem prune_keeps_pinned (db : DB) (g : Nat) (l : Int) (hwf : WF db)
    (it : Item) (hmem : it ∈ db.items) (hpin : it.pinned = true) :
    it ∈ (prune_group_items db g l).items := by
  rcases prune_spec db g l with h | ⟨L, hL, h⟩
  · rw [h]; exact hmem
  · rw [h, foldl_delete_items, List.mem_filter]
    refine ⟨hmem, ?_⟩
    simp only [decide_eq_true_eq]
    intro hin
    rcases hL _ hin with ⟨u, hu, _, hup, huid⟩
    have : u = it := List.inj_on_of_nodup_map hwf.1 hu hmem huid
    rw [this] at hup
    rw [hpin] at hup
    exact Bool.noConfusion hup

/-- Pruning can only shrink any count over items. -/
theorem prune_countP_le (db : DB) (g : Nat) (l : Int) (p : Item → Bool) :
    (prune_group_items db g l).items.countP p ≤ db.items.countP p :=
  (prune_items_sublist db g l).countP_le p

end Storage

namespace Storage

/-- After pruning with a positive limit, the pruned group holds at most
`limit` unpinned items. -/
theorem prune_count_le (db : DB) (g : Nat) (l : Int) (hwf : WF db)
    (hl : 0 < l) :
    ((countUnpinned (prune_group_items db g l) g : Int)) ≤ l := by
  unfold prune_group_items
  rw [if_neg (by omega)]
  dsimp only
  set F := db.items.filter (fun it => it.group_id == g && !it.pinned) with hF
  set S := List.insertionSort pruneLe F with hS
  set ids := S.map (fun it => it.id) with hids
  have hSF : S.Perm F := List.perm_insertionSort pruneLe F
  have hlen : ids.length = F.length := by
    rw [hids, List.length_map, hSF.length_eq]
  split
  · next h =>
    have hcu : countUnpinned db g = F.length := by
      rw [countUnpinned, hF, List.countP_eq_length_filter]
    rw [hcu, ← hlen]
    exact h
  · next h =>
    unfold countUnpinned
    rw [foldl_delete_items, List.countP_eq_length_filter, List.filter_filter]
    set D := ids.drop l.toNat with hD
    set M := db.items.filter
      (fun it => (it.group_id == g && !it.pinned) && decide (it.id ∉ D)) with hM
    have hsubM : M.Sublist db.items := List.filter_sublist _
    have hnd : (M.map (fun it => it.id)).Nodup :=
      hwf.1.sublist (hsubM.map _)
    have hsubset : M.map (fun it => it.id) ⊆ ids.take l.toNat := by
      intro x hx
      rcases List.mem_map.1 hx with ⟨it, hit, rfl⟩
      rcases List.mem_filter.1 hit with ⟨hdb, hp⟩
      simp only [Bool.and_eq_true, decide_eq_true_eq] at hp
      have h1 : it ∈ F := by
        rw [hF]
        exact List.mem_filter.2 ⟨hdb, by simp [hp.1.1, hp.1.2]⟩
      have hin : it.id ∈ ids := by
        rw [hids]
        exact List.mem_map_of_mem _ (hSF.mem_iff.2 h1)
      have hsplit : ids.take l.toNat ++ D = ids := by
        rw [hD]; exact List.take_append_drop _ _
      rw [← hsplit] at hin
      rcases List.mem_append.1 hin with hh | hh
      · exact hh
      · exact absurd hh hp.2
    have hlenM : M.length ≤ l.toNat := by
      have h1 : (M.map (fun it => it.id)).length ≤ (ids.take l.toNat).length :=
        (List.subperm_of_subset hnd hsubset).length_le
      rw [List.length_map] at h1
      exact h1.trans (by simp [List.length_take])
    have : (M.length : Int) ≤ (l.toNat : Int) := by exact_mod_cast hlenM
    rwa [Int.toNat_of_nonneg hl.le] at this

/-! Well-formedness is preserved by every operation. -/

theorem WF_of_eq (db X : DB) (hi : X.items = db.items)
    (hn : X.next_item_id = db.next_item_id) (hwf : WF db) : WF X := by
  rw [WF, hi, hn]; exact hwf

theorem WF_filter (db : DB) (p : Item → Bool) (ss : List Subitem)
    (gs : List Group) (hwf : WF db) :
    WF { db with items := db.items.filter p, subitems := ss, groups := gs } := by
  constructor
  · exact hwf.1.sublist ((List.filter_sublist _).map _)
  · intro it hit
    exact hwf.2 it ((List.filter_sublist _).subset hit)

theorem WF_prune (db : DB) (g : Nat) (l : Int) (hwf : WF db) :
    WF (prune_group_items db g l) := by
  constructor
  · exact hwf.1.sublist ((prune_items_sublist db g l).map _)
  · intro it hit
    rw [prune_next_item_eq]
    exact hwf.2 it ((prune_items_sublist db g l).subset hit)

theorem WF_map (db : DB) (f : Item → Item) (hf : ∀ it, (f it).id = it.id)
    (hwf : WF db) : WF { db with items := db.items.map f } := by
  constructor
  · have h : (db.items.map f).map (fun it => it.id)
        = db.items.map (fun it => it.id) := by
      rw [List.map_map]
      exact List.map_congr_left (fun a _ => hf a)
    show ((db.items.map f).map (fun it => it.id)).Nodup
    rw [h]; exact hwf.1
  · intro it hit
    rcases List.mem_map.1 hit with ⟨u, hu, rfl⟩
    show (f u).id < db.next_item_id
    rw [hf]; exact hwf.2 u hu

end Storage

namespace Storage

theorem WF_insert (db : DB) (it : Item) (hid : it.id = db.next_item_id)
    (hwf : WF db) :
    WF { db with items := db.items ++ [it],
                 next_item_id := db.next_item_id + 1 } := by
  constructor
  · show ((db.items ++ [it]).map (fun x => x.id)).Nodup
    rw [List.map_append, List.nodup_append]
    refine ⟨hwf.1, List.nodup_singleton _, ?_⟩
    intro x hx
    rcases List.mem_map.1 hx with ⟨u, hu, rfl⟩
    have := hwf.2 u hu
    simp only [List.map_cons, List.map_nil, List.mem_singleton, hid]
    omega
  · intro x hx
    show x.id < db.next_item_id + 1
    rcases List.mem_append.1 hx with h | h
    · have := hwf.2 x h
      omega
    · rcases List.mem_singleton.1 h with rfl
      omega

/-- Well-formedness of the item table survives every storage call. -/
theorem WF_applyOp (cap : Int) (db : DB) (op : Op) (hwf : WF db) :
    WF (applyOp cap db op) := by
  cases op with
  | createGroup name =>
    show WF (match create_group db name with
      | .ok (db1, _) => db1 | .error _ => db)
    cases hc : create_group db name with
    | error e => exact hwf
    | ok X =>
      have hX : X.1.items = db.items ∧ X.1.next_item_id = db.next_item_id := by
        unfold create_group at hc
        split at hc
        · exact absurd hc (by simp)
        · injection hc with h
          rw [← h]
          exact ⟨rfl, rfl⟩
      exact WF_of_eq db _ hX.1 hX.2 hwf
  | renameGroup gid name =>
    show WF (match rename_group db gid name with
      | .ok db1 => db1 | .error _ => db)
    cases hc : rename_group db gid name with
    | error e => exact hwf
    | ok db1 =>
      have hX : db1.items = db.items ∧ db1.next_item_id = db.next_item_id := by
        unfold rename_group at hc
        split at hc
        · injection hc with h
          rw [← h]
          exact ⟨rfl, rfl⟩
        · split at hc
          · exact absurd hc (by simp)
          · injection hc with h
            rw [← h]
            exact ⟨rfl, rfl⟩
      exact WF_of_eq db _ hX.1 hX.2 hwf
  | deleteGroup gid =>
    show WF (delete_group db gid)
    unfold delete_group
    exact WF_filter db _ _ _ hwf
  | addItem ct ctext cblob ptext pblob created gid =>
    show WF ((add_item db ct ctext cblob ptext pblob created gid cap).1)
    unfold add_item
    exact WF_prune _ _ _ (WF_insert db _ rfl hwf)
  | setPinned i p now =>
    show WF (set_pinned db i p now cap)
    unfold set_pinned
    dsimp only
    cases db.items.find? (fun it => it.id == i) with
    | none => exact WF_map db _ (fun it => by split <;> rfl) hwf
    | some it0 =>
      cases p with
      | true => exact WF_map db _ (fun it => by split <;> rfl) hwf
      | false =>
        exact WF_prune _ _ _ (WF_map db _ (fun it => by split <;> rfl) hwf)
  | moveItem i gid =>
    show WF (move_item_to_group db i gid cap)
    unfold move_item_to_group
    exact WF_prune _ _ _ (WF_map db _ (fun it => by split <;> rfl) hwf)
  | touchItem i ts =>
    show WF (touch_item_last_used db i ts)
    unfold touch_item_last_used
    exact WF_map db _ (fun it => by split <;> rfl) hwf
  | deleteItem i =>
    show WF (delete_item db i)
    unfold delete_item
    exact WF_filter db _ _ _ hwf
  | addSubitem i text icons tag now => exact WF_of_eq db _ rfl rfl hwf
  | deleteSubitem sid =>
    show WF (delete_subitem db sid)
    unfold delete_subitem
    split
    · exact hwf
    · exact WF_of_eq db _ rfl rfl hwf
  | deleteSubitemsByTag i tag =>
    show WF (delete_subitems_by_tag db i tag)
    unfold delete_subitems_by_tag
    split
    · exact hwf
    · exact WF_of_eq db _ rfl rfl hwf
  | updatePreview i ptext pblob =>
    cases ptext with
    | none => exact hwf
    | some t => exact WF_map db _ (fun it => by split <;> rfl) hwf

end Storage

namespace Storage

theorem countUnpinned_eq_of_items_eq (db X : DB) (h : X.items = db.items)
    (g : Nat) : countUnpinned X g = countUnpinned db g := by
  unfold countUnpinned; rw [h]

theorem countUnpinned_sublist_le (db X : DB) (h : X.items.Sublist db.items)
    (g : Nat) : countUnpinned X g ≤ countUnpinned db g :=
  h.countP_le _

theorem countUnpinned_map_le (db : DB) (f : Item → Item) (g : Nat)
    (hf : ∀ a ∈ db.items,
        (((f a).group_id == g) && !(f a).pinned) = true →
        ((a.group_id == g) && !a.pinned) = true) :
    countUnpinned { db with items := db.items.map f } g
      ≤ countUnpinned db g := by
  show (db.items.map f).countP _ ≤ db.items.countP _
  rw [List.countP_map]
  exact List.countP_mono_left hf

/-- The retention bound is preserved by every single storage call. -/
theorem inv_applyOp (cap : Int) (db : DB) (op : Op) (hwf : WF db)
    (hcap : 0 < cap) (hinv : ∀ g, (countUnpinned db g : Int) ≤ cap) :
    ∀ g, (countUnpinned (applyOp cap db op) g : Int) ≤ cap := by
  intro g
  have hchain : ∀ X : DB, countUnpinned X g ≤ countUnpinned db g →
      (countUnpinned X g : Int) ≤ cap := by
    intro X h
    have h2 := hinv g
    have h3 : (countUnpinned X g : Int) ≤ (countUnpinned db g : Int) := by
      exact_mod_cast h
    omega
  cases op with
  | createGroup name =>
    refine hchain _ (Nat.le_of_eq (countUnpinned_eq_of_items_eq db _ ?_ g))
    show (match create_group db name with
      | .ok (db1, _) => db1 | .error _ => db).items = db.items
    cases hc : create_group db name with
    | error e => rfl
    | ok X =>
      unfold create_group at hc
      split at hc
      · exact absurd hc (by simp)
      · injection hc with hh
        rw [← hh]
  | renameGroup gid name =>
    refine hchain _ (Nat.le_of_eq (countUnpinned_eq_of_items_eq db _ ?_ g))
    show (match rename_group db gid name with
      | .ok db1 => db1 | .error _ => db).items = db.items
    cases hc : rename_group db gid name with
    | error e => rfl
    | ok db1 =>
      unfold rename_group at hc
      split at hc
      · injection hc with hh
        rw [← hh]
      · split at hc
        · exact absurd hc (by simp)
        · injection hc with hh
          rw [← hh]
  | deleteGroup gid =>
    exact hchain _ (countUnpinned_sublist_le db _ (List.filter_sublist _) g)
  | addItem ct ctext cblob ptext pblob created gid =>
    show (countUnpinned (add_item db ct ctext cblob ptext pblob created gid cap).1 g : Int) ≤ cap
    unfold add_item
    dsimp only
    by_cases hg : g = gid
    · subst hg
      exact prune_count_le _ g cap (WF_insert db _ rfl hwf) hcap
    · refine hchain _ (le_trans
        (countUnpinned_sublist_le _ _ (prune_items_sublist _ _ _) g)
        (Nat.le_of_eq ?_))
      show (db.items ++ [_]).countP _ = db.items.countP _
      rw [List.countP_append]
      have : ((gid == g) && !false) = false := by
        simp only [Bool.not_false, Bool.and_true, beq_eq_false_iff_ne, ne_eq]
        exact fun hh => hg hh.symm
      simp [List.countP_cons, this]
      exact fun hh => hg hh.symm
  | setPinned i p now =>
    show (countUnpinned (set_pinned db i p now cap) g : Int) ≤ cap
    unfold set_pinned
    dsimp only
    cases hrow : db.items.find? (fun it => it.id == i) with
    | none =>
      refine hchain _ (Nat.le_of_eq (countUnpinned_eq_of_items_eq db _ ?_ g))
      show db.items.map _ = db.items
      exact Eq.trans
        (List.map_congr_left (fun a ha => by
          rw [if_neg (List.find?_eq_none.1 hrow a ha)]))
        (List.map_id' _)
    | some it0 =>
      have hmem0 : it0 ∈ db.items := List.mem_of_find?_eq_some hrow
      have hid0 := List.find?_some hrow
      cases p with
      | true =>
        refine hchain _ (countUnpinned_map_le db _ g ?_)
        intro a ha hp
        by_cases h : (a.id == i) = true
        · rw [if_pos h] at hp
          simp at hp
        · rw [if_neg h] at hp
          exact hp
      | false =>
        by_cases hg : g = it0.group_id
        · subst hg
          exact prune_count_le _ _ cap
            (WF_map db _ (fun it => by split <;> rfl) hwf) hcap
        · refine hchain _ (le_trans
            (countUnpinned_sublist_le _ _ (prune_items_sublist _ _ _) g)
            (countUnpinned_map_le db _ g ?_))
          intro a ha hp
          by_cases h : (a.id == i) = true
          · have haid : a.id = it0.id := by
              have h1 := beq_iff_eq.1 h
              have h2 : it0.id = i := by simpa using hid0
              omega
            have : a = it0 := List.inj_on_of_nodup_map hwf.1 ha hmem0 haid
            subst this
            rw [if_pos h] at hp
            exfalso
            simp only [Bool.and_eq_true, beq_iff_eq] at hp
            exact hg hp.1.symm
          · rw [if_neg h] at hp
            exact hp
  | moveItem i gid =>
    show (countUnpinned (move_item_to_group db i gid cap) g : Int) ≤ cap
    unfold move_item_to_group
    dsimp only
    by_cases hg : g = gid
    · subst hg
      exact prune_count_le _ g cap
        (WF_map db _ (fun it => by split <;> rfl) hwf) hcap
    · refine hchain _ (le_trans
        (countUnpinned_sublist_le _ _ (prune_items_sublist _ _ _) g)
        (countUnpinned_map_le db _ g ?_))
      intro a ha hp
      by_cases h : (a.id == i) = true
      · rw [if_pos h] at hp
        exfalso
        simp only [Bool.and_eq_true, beq_iff_eq] at hp
        exact hg hp.1.symm
      · rw [if_neg h] at hp
        exact hp
  | touchItem i ts =>
    refine hchain _ (countUnpinned_map_le db _ g ?_)
    intro a ha hp
    by_cases h : (a.id == i) = true
    · rw [if_pos h] at hp
      exact hp
    · rw [if_neg h] at hp
      exact hp
  | deleteItem i =>
    exact hchain _ (countUnpinned_sublist_le db _ (List.filter_sublist _) g)
  | addSubitem i text icons tag now =>
    exact hchain _ (Nat.le_of_eq (countUnpinned_eq_of_items_eq db _ rfl g))
  | deleteSubitem sid =>
    refine hchain _ (Nat.le_of_eq (countUnpinned_eq_of_items_eq db _ ?_ g))
    show (delete_subitem db sid).items = db.items
    unfold delete_subitem
    split <;> rfl
  | deleteSubitemsByTag i tag =>
    refine hchain _ (Nat.le_of_eq (countUnpinned_eq_of_items_eq db _ ?_ g))
    show (delete_subitems_by_tag db i tag).items = db.items
    unfold delete_subitems_by_tag
    split <;> rfl
  | updatePreview i ptext pblob =>
    cases ptext with
    | none => exact hinv g
    | some t =>
      refine hchain _ (countUnpinned_map_le db _ g ?_)
      intro a ha hp
      by_cases h : (a.id == i) = true
      · rw [if_pos h] at hp
        exact hp
      · rw [if_neg h] at hp
        exact hp

/-- Well-formedness and the retention bound along a whole call trace. -/
theorem inv_applyOps (cap : Int) (db : DB) (ops : List Op) (hwf : WF db)
    (hcap : 0 < cap) (hinv : ∀ g, (countUnpinned db g : Int) ≤ cap) :
    WF (applyOps cap db ops) ∧
    ∀ g, (countUnpinned (applyOps cap db ops) g : Int) ≤ cap := by
  induction ops generalizing db with
  | nil => exact ⟨hwf, hinv⟩
  | cons op ops ih =>
    exact ih (applyOp cap db op) (WF_applyOp cap db op hwf)
      (inv_applyOp cap db op hwf hcap hinv)

end Storage

namespace Storage

/-- C9: with cap 2 and an initially empty Default group, inserting three
unpinned items A, B, C with strictly increasing `created_at` and no
`last_used_at` leaves, immediately after C's insert, exactly B (id 2) and
C (id 3) stored; A (id 1) has been evicted by the prune that runs inside
`add_item`. -/
theorem claim_C9_eviction_scenario :
    effective_cap 2 = 2 ∧
    ((applyOps (effective_cap 2) freshDB
        [Op.addItem "text" "A" none none none 10 1,
         Op.addItem "text" "B" none none none 20 1,
         Op.addItem "text" "C" none none none 30 1]).items.map
      (fun it => (it.id, it.content_text))) = [(2, "B"), (3, "C")] := by
  decide

/-- C10: `update_preview` with a `None` preview text raises `TypeError`
at the guard `if "xxx" in preview_text` before any UPDATE is issued, so
the stored state — every field of every item — is unchanged, for every
item id and preview blob. -/
theorem claim_C10_update_preview_none (cap : Int) (db : DB) (item_id : Nat)
    (preview_blob : Option Blob) :
    update_preview db item_id none preview_blob = .error .typeError ∧
    applyOp cap db (.updatePreview item_id none preview_blob) = db :=
  ⟨rfl, rfl⟩

set_option maxRecDepth 40000 in
/-- C3 is false on the code: a non-positive configured cap does not
disable pruning.  `Storage.__init__` replaces the configured value 0 by
the default 300, and with 301 unpinned items stored, a single `add_item`
still evicts: item 301 (the stalest) is deleted through pruning. -/
theorem claim_C3_counterexample :
    effective_cap 0 = 300 ∧
    (301 ∈ (bulkDB 301).items.map (fun it => it.id)) ∧
    (301 ∉ ((applyOps (effective_cap 0) (bulkDB 301)
        [Op.addItem "text" "new" none none none 0 1]).items.map
        (fun it => it.id))) := by
  decide

/-- C3 amended: a non-positive configured cap is replaced by the default
300 at construction, so retention pruning stays enabled with cap 300; the
internal `_prune_group_items` does treat a non-positive `limit` as a
no-op, but the stored cap passed to it is never non-positive. -/
theorem claim_C3_nonpositive_cap_amended (c : Int) (hc : c ≤ 0) :
    effective_cap c = 300 ∧
    (∀ (db : DB) (g : Nat) (l : Int), l ≤ 0 →
      prune_group_items db g l = db) := by
  constructor
  · unfold effective_cap DEFAULT_MAX_STORAGE_PER_GROUP
    rw [if_neg (by omega)]
  · intro db g l hl
    unfold prune_group_items
    rw [if_pos hl]

theorem claim_C3_nonpositive_cap_amended_witness :
    effective_cap (-5) = 300 ∧ prune_group_items oneItemDB 1 0 = oneItemDB :=
  ⟨(claim_C3_nonpositive_cap_amended (-5) (by norm_num)).1,
   (claim_C3_nonpositive_cap_amended (-5) (by norm_num)).2 oneItemDB 1 0
     (by norm_num)⟩

/-- C4 is false at the storage layer: `Storage.delete_group` applied to
the id of the group named "Default" deletes that group and its items;
nothing in `delete_group` checks the name.  (The guard lives in the
backend caller.) -/
theorem claim_C4_counterexample :
    get_group_by_name oneItemDB "Default"
      = some { id := 1, name := "Default", position := 1 } ∧
    (delete_group oneItemDB 1).groups = [] ∧
    (delete_group oneItemDB 1).items = [] := by
  decide

/-- C6 is false as stated: foreign keys are not enforced, so a sequence
containing `add_subitem` for a nonexistent item id stores an orphan
subitem (here: subitem of item 5 while no items exist at all). -/
theorem claim_C6_counterexample :
    ¬ NoOrphans (applyOps 300 freshDB
        [Op.addSubitem 5 "orphan" none (some "url") 7]) ∧
    ((applyOps 300 freshDB [Op.addSubitem 5 "orphan" none (some "url") 7]).subitems.map
      (fun s => s.item_id)) = [5] ∧
    (applyOps 300 freshDB [Op.addSubitem 5 "orphan" none (some "url") 7]).items = [] := by
  decide

/-- C5 is false: the filter `content_text LIKE '%abc%'` is
ASCII-case-insensitive in SQLite, so the item whose text is `ABC` is
returned for the query `abc`, while the claim says it must be excluded. -/
theorem claim_C5_counterexample :
    ((list_items upperDB (some 1) (some "abc") false).map (fun r => r.id))
      = [1] := by
  decide

/-- C8 is false for the empty tag: `delete_subitems_by_tag` returns
without deleting when the tag is falsy, so replacing twice with tag `""`
accumulates two subitems instead of leaving exactly one. -/
theorem claim_C8_counterexample :
    ((replace_subitem_by_tag (replace_subitem_by_tag oneItemDB 1 "s1" "" 5)
        1 "s2" "" 6).subitems.filter
      (fun s => s.item_id == 1 && tag_matches s.tag "")).map (fun s => s.text)
      = ["s1", "s2"] := by
  decide

end Storage

namespace Storage

/-- C4 amended: the Default-group protection lives in the backend caller,
not in `Storage.delete_group`: `Backend.deleteGroup` refuses the id of
the group named "Default" and leaves the database unchanged; and if the
Default group is absent when the engine is opened, `_init_schema`
recreates it. -/
theorem claim_C4_default_group_amended :
    (∀ (db : DB) (g : Group), get_group_by_name db "Default" = some g →
      backend_deleteGroup db (g.id : Int) = db) ∧
    (∀ db : DB, ∃ g ∈ (init_default_group db).groups, g.name = "Default") := by
  constructor
  · intro db g h
    unfold backend_deleteGroup
    rw [h]
    rw [if_neg (not_lt.2 (Int.natCast_nonneg g.id))]
    rw [if_pos (by simp)]
  · intro db
    unfold init_default_group
    by_cases h : (get_group_by_name db "Default").isSome
    · rw [if_pos h]
      rcases Option.isSome_iff_exists.1 h with ⟨g, hg⟩
      refine ⟨g, List.mem_of_find?_eq_some hg, ?_⟩
      have := List.find?_some hg
      simpa using this
    · rw [if_neg h]
      have hnone : get_group_by_name db "Default" = none :=
        Option.not_isSome_iff_eq_none.1 h
      have hany : (db.groups.any (fun g => g.name == "Default")) = false := by
        rw [List.any_eq_false]
        intro g hg
        exact List.find?_eq_none.1 hnone g hg
      unfold create_group
      rw [if_neg (by simp [hany])]
      exact ⟨_, List.mem_append_right _ (List.mem_singleton_self _), rfl⟩

theorem claim_C4_default_group_amended_witness :
    backend_deleteGroup freshDB ((1 : Nat) : Int) = freshDB ∧
    ∃ g ∈ (init_default_group emptyDB).groups, g.name = "Default" :=
  ⟨claim_C4_default_group_amended.1 freshDB
     { id := 1, name := "Default", position := 1 } (by decide),
   claim_C4_default_group_amended.2 emptyDB⟩

/-- C7: duplicate group names are rejected atomically.  `create_group` on
an existing name fails with the UNIQUE violation and the state is
unchanged; `rename_group` of an existing group to a name held by a
different group fails the same way and the original name (indeed the
whole state) is unchanged. -/
theorem claim_C7_duplicate_group_names (cap : Int) (db : DB) (n : String) :
    ((∃ g ∈ db.groups, g.name = n) →
      create_group db n = .error .uniqueViolation ∧
      applyOp cap db (.createGroup n) = db) ∧
    (∀ gid : Nat, (∃ g ∈ db.groups, g.id = gid) →
      (∃ g ∈ db.groups, g.name = n ∧ g.id ≠ gid) →
      rename_group db gid n = .error .uniqueViolation ∧
      applyOp cap db (.renameGroup gid n) = db) := by
  constructor
  · rintro ⟨g, hg, rfl⟩
    have hany : db.groups.any (fun x => x.name == g.name) = true :=
      List.any_eq_true.2 ⟨g, hg, by simp⟩
    constructor
    · unfold create_group
      rw [if_pos hany]
    · show (match create_group db g.name with
        | .ok (db1, _) => db1 | .error _ => db) = db
      unfold create_group
      rw [if_pos hany]
  · rintro gid ⟨g1, hg1, hid1⟩ ⟨g2, hg2, hn2, hne2⟩
    have hall : db.groups.all (fun x => x.id != gid) = false := by
      rw [Bool.eq_false_iff]
      intro hc
      have := List.all_eq_true.1 hc g1 hg1
      simp [hid1] at this
    have hany : db.groups.any (fun x => x.name == n && x.id != gid) = true :=
      List.any_eq_true.2 ⟨g2, hg2, by simp [hn2, hne2]⟩
    constructor
    · unfold rename_group
      rw [if_neg (by simp [hall]), if_pos hany]
    · show (match rename_group db gid n with
        | .ok db1 => db1 | .error _ => db) = db
      unfold rename_group
      rw [if_neg (by simp [hall]), if_pos hany]

theorem claim_C7_duplicate_group_names_witness :
    (create_group twoGroupDB "Default" = .error .uniqueViolation ∧
     applyOp 300 twoGroupDB (.createGroup "Default") = twoGroupDB) ∧
    (rename_group twoGroupDB 2 "Default" = .error .uniqueViolation ∧
     applyOp 300 twoGroupDB (.renameGroup 2 "Default") = twoGroupDB) :=
  ⟨(claim_C7_duplicate_group_names 300 twoGroupDB "Default").1 (by decide),
   (claim_C7_duplicate_group_names 300 twoGroupDB "Default").2 2 (by decide)
     (by decide)⟩

end Storage

namespace Storage

/-- C1: retention invariant.  With a positive stored cap, starting from a
well-formed state whose groups are all within the cap, after any sequence
of storage calls (in particular `add_item`, `set_pinned` unpins and
`move_item_to_group`) every group holds at most `cap` unpinned items —
`countUnpinned` counts only unpinned rows, i.e. pinned items are not
counted against the cap — and pruning never deletes a pinned item. -/
theorem claim_C1_retention_invariant (cap : Int) (db : DB) (ops : List Op)
    (hcap : 0 < cap) (hwf : WF db)
    (hinv : ∀ g, (countUnpinned db g : Int) ≤ cap) :
    (∀ g, (countUnpinned (applyOps cap db ops) g : Int) ≤ cap) ∧
    (∀ (g : Nat) (l : Int) (it : Item), it ∈ db.items → it.pinned = true →
      it ∈ (prune_group_items db g l).items) :=
  ⟨(inv_applyOps cap db ops hwf hcap hinv).2,
   fun g l it hm hp => prune_keeps_pinned db g l hwf it hm hp⟩

theorem claim_C1_retention_invariant_witness :
    (countUnpinned (applyOps 2 freshDB
      [Op.addItem "text" "a" none none none 1 1,
       Op.addItem "text" "b" none none none 2 1,
       Op.addItem "text" "c" none none none 3 1,
       Op.setPinned 2 false 4,
       Op.moveItem 3 1]) 1 : Int) ≤ 2 :=
  (claim_C1_retention_invariant 2 freshDB
    [Op.addItem "text" "a" none none none 1 1,
     Op.addItem "text" "b" none none none 2 1,
     Op.addItem "text" "c" none none none 3 1,
     Op.setPinned 2 false 4,
     Op.moveItem 3 1] (by norm_num) (by decide)
    (fun g => by rw [show countUnpinned freshDB g = 0 from rfl]; norm_num)).1 1

/-- C8 amended: for every non-empty tag, replacing twice (clear-by-tag
then insert) leaves exactly one subitem of that tag attached to the item,
carrying the second text; the clear step matches tags
ASCII-case-insensitively.  (The empty tag is excluded: the code's
`if not tag: return` skips the deletion for it.) -/
theorem claim_C8_tag_replace_amended (db : DB) (i : Nat) (t s1 s2 : String)
    (ts1 ts2 : Int) (ht : t ≠ "") :
    ((replace_subitem_by_tag (replace_subitem_by_tag db i s1 t ts1)
        i s2 t ts2).subitems.filter
      (fun s => s.item_id == i && tag_matches s.tag t)).map
        (fun s => (s.text, s.tag)) = [(s2, some t)] := by
  have htb : (t == "") = false := by simpa using ht
  have hPt : tag_matches (some t) t = true := by simp [tag_matches]
  unfold replace_subitem_by_tag add_subitem delete_subitems_by_tag
  simp only [htb, Bool.false_eq_true, if_false]
  simp [List.filter_append, List.filter_filter, hPt]

theorem claim_C8_tag_replace_amended_witness :
    ((replace_subitem_by_tag (replace_subitem_by_tag oneItemDB 1 "s1" "Url" 5)
        1 "s2" "Url" 6).subitems.filter
      (fun s => s.item_id == 1 && tag_matches s.tag "Url")).map
        (fun s => (s.text, s.tag)) = [("s2", some "Url")] :=
  claim_C8_tag_replace_amended oneItemDB 1 "Url" "s1" "s2" 5 6 (by decide)

end Storage

namespace Storage

theorem asciiLower_idem (c : Char) : asciiLower (asciiLower c) = asciiLower c := by
  unfold asciiLower
  by_cases h : 65 ≤ c.toNat ∧ c.toNat ≤ 90
  · rw [if_pos h]
    have htn : (Char.ofNat (c.toNat + 32)).toNat = c.toNat + 32 := by
      unfold Char.ofNat
      rw [dif_pos (Or.inl (by omega))]
      rfl
    rw [if_neg (by rw [htn]; omega)]
  · rw [if_neg h, if_neg h]

theorem likeCharMatch_lower (p c : Char) :
    likeCharMatch p (asciiLower c) = likeCharMatch p c := by
  unfold likeCharMatch
  rw [asciiLower_idem]

theorem tails_map (f : Char → Char) (l : List Char) :
    (l.map f).tails = l.tails.map (List.map f) := by
  induction l with
  | nil => rfl
  | cons a l ih => simp [ih]

/-- SQLite `LIKE` matching cannot tell a string from its ASCII
lower-casing: the comparison folds case on both sides. -/
theorem likeMatch_lower (pat : List Char) :
    ∀ s : List Char, likeMatch pat (s.map asciiLower) = likeMatch pat s := by
  induction pat with
  | nil => intro s; cases s <;> rfl
  | cons p ps ih =>
    intro s
    simp only [likeMatch]
    by_cases hp : (p == '%') = true
    · rw [if_pos hp, if_pos hp, tails_map, List.any_map]
      have : ((fun t => likeMatch ps t) ∘ List.map asciiLower)
          = fun t => likeMatch ps t := by
        funext t
        exact ih t
      rw [this]
    · rw [if_neg hp, if_neg hp]
      cases s with
      | nil => rfl
      | cons c cs =>
        simp only [List.map_cons]
        rw [likeCharMatch_lower, ih cs]

theorem likeMatch_pct (s : List Char) : likeMatch ['%'] s = true := by
  show (s.tails.any fun t => likeMatch [] t) = true
  exact List.any_eq_true.2 ⟨[], by simp, rfl⟩

theorem likeMatch_pct_pct (s : List Char) :
    likeMatch ['%', '%'] s = true := by
  show (s.tails.any fun t => likeMatch ['%'] t) = true
  exact List.any_eq_true.2 ⟨[], by simp, likeMatch_pct []⟩

theorem itemPasses_some_iff (g : Nat) (q : String) (it : Item) :
    itemPasses (some g) (some q) it = true ↔
    (it.group_id = g ∧
      sqlite_like ("%" ++ q ++ "%") it.content_text = true) := by
  unfold itemPasses
  dsimp only
  by_cases hq : (q == "") = true
  · have hq' : q = "" := by simpa using hq
    subst hq'
    rw [if_pos hq]
    have hlike : sqlite_like ("%" ++ "" ++ "%") it.content_text = true := by
      unfold sqlite_like
      rw [show ("%" ++ "" ++ "%").data = ['%', '%'] from by decide]
      exact likeMatch_pct_pct _
    simp [hlike]
    intro _
    exact hlike
  · rw [if_neg hq]
    simp

/-- C5 amended: the search filter of `list_items` is SQLite `LIKE` with
the query wrapped in `%`, which is an ASCII-case-insensitive substring
match (with `%`/`_` in the query acting as wildcards): the rows returned
for a group and query are exactly those derived from stored items of the
group whose `content_text` matches `LIKE '%' || query || '%'`; and the
match cannot distinguish a text from its ASCII lower-casing. -/
theorem claim_C5_search_filter_amended (db : DB) (g : Nat) (q : String)
    (po : Bool) (r : Row) :
    (r ∈ list_items db (some g) (some q) po ↔
      ∃ it ∈ db.items, it.group_id = g ∧
        sqlite_like ("%" ++ q ++ "%") it.content_text = true ∧
        r = selectRow po it) ∧
    (∀ (pat s : List Char),
      likeMatch pat (s.map asciiLower) = likeMatch pat s) := by
  constructor
  · unfold list_items
    rw [List.mem_map]
    constructor
    · rintro ⟨it, hit, rfl⟩
      have hmemF := (List.perm_insertionSort itemLe _).mem_iff.1 hit
      rcases List.mem_filter.1 hmemF with ⟨hdb, hpass⟩
      rcases (itemPasses_some_iff g q it).1 hpass with ⟨h1, h2⟩
      exact ⟨it, hdb, h1, h2, rfl⟩
    · rintro ⟨it, hdb, h1, h2, rfl⟩
      refine ⟨it, ?_, rfl⟩
      exact (List.perm_insertionSort itemLe _).mem_iff.2
        (List.mem_filter.2 ⟨hdb, (itemPasses_some_iff g q it).2 ⟨h1, h2⟩⟩)
  · intro pat s
    exact likeMatch_lower pat s

end Storage

namespace Storage

theorem noOrphans_delete_item (db : DB) (i : Nat) (hno : NoOrphans db) :
    NoOrphans (delete_item db i) := by
  unfold delete_item
  constructor
  · intro s hs
    rcases List.mem_filter.1 hs with ⟨hsm, hpred⟩
    rcases hno.1 s hsm with ⟨it, hit, hd⟩
    refine ⟨it, List.mem_filter.2 ⟨hit, ?_⟩, hd⟩
    rw [hd]
    exact hpred
  · intro it hit
    rcases List.mem_filter.1 hit with ⟨him, _⟩
    exact hno.2 it him

theorem noOrphans_foldl_delete (L : List Nat) (db : DB) (hno : NoOrphans db) :
    NoOrphans (L.foldl delete_item db) := by
  induction L generalizing db with
  | nil => exact hno
  | cons a L ih => exact ih _ (noOrphans_delete_item db a hno)

theorem noOrphans_prune (db : DB) (g : Nat) (l : Int) (hno : NoOrphans db) :
    NoOrphans (prune_group_items db g l) := by
  rcases prune_spec db g l with h | ⟨L, _, h⟩
  · rw [h]; exact hno
  · rw [h]; exact noOrphans_foldl_delete L db hno

theorem noOrphans_map_simple (db : DB) (f : Item → Item)
    (hid : ∀ it, (f it).id = it.id)
    (hgrp : ∀ it, (f it).group_id = it.group_id)
    (hno : NoOrphans db) :
    NoOrphans { db with items := db.items.map f } := by
  constructor
  · intro s hs
    rcases hno.1 s hs with ⟨it, hit, hd⟩
    exact ⟨f it, List.mem_map_of_mem f hit, by rw [hid]; exact hd⟩
  · intro it hit
    rcases List.mem_map.1 hit with ⟨u, hu, rfl⟩
    rcases hno.2 u hu with ⟨g, hg, hgid⟩
    exact ⟨g, hg, by rw [hgrp]; exact hgid⟩

/-- Referential integrity survives any storage call whose creation/move
targets exist. -/
theorem noOrphans_applyOp (cap : Int) (db : DB) (op : Op) (hno : NoOrphans db)
    (hv : ValidOp db op) : NoOrphans (applyOp cap db op) := by
  cases op with
  | createGroup name =>
    show NoOrphans (match create_group db name with
      | .ok (db1, _) => db1 | .error _ => db)
    cases hc : create_group db name with
    | error e => exact hno
    | ok X =>
      unfold create_group at hc
      split at hc
      · exact absurd hc (by simp)
      · injection hc with hh
        rw [← hh]
        constructor
        · intro s hs
          exact hno.1 s hs
        · intro it hit
          rcases hno.2 it hit with ⟨g, hg, hgid⟩
          exact ⟨g, List.mem_append_left _ hg, hgid⟩
  | renameGroup gid name =>
    show NoOrphans (match rename_group db gid name with
      | .ok db1 => db1 | .error _ => db)
    cases hc : rename_group db gid name with
    | error e => exact hno
    | ok db1 =>
      unfold rename_group at hc
      split at hc
      · injection hc with hh
        rw [← hh]
        exact hno
      · split at hc
        · exact absurd hc (by simp)
        · injection hc with hh
          rw [← hh]
          constructor
          · intro s hs
            exact hno.1 s hs
          · intro it hit
            rcases hno.2 it hit with ⟨g, hg, hgid⟩
            refine ⟨if g.id == gid then { g with name := name } else g,
              List.mem_map_of_mem _ hg, ?_⟩
            split
            · exact hgid
            · exact hgid
  | deleteGroup gid =>
    show NoOrphans (delete_group db gid)
    unfold delete_group
    constructor
    · intro s hs
      rcases List.mem_filter.1 hs with ⟨hsm, hpred⟩
      rcases hno.1 s hsm with ⟨it, hit, hd⟩
      have hitg : (it.group_id != gid) = true := by
        simp only [bne_iff_ne, ne_eq]
        intro heq
        have hv1 : it ∈ db.items.filter (fun x => x.group_id == gid) :=
          List.mem_filter.2 ⟨hit, by simp [heq]⟩
        have hv2 : it.id ∈ (db.items.filter
            (fun x => x.group_id == gid)).map (fun x => x.id) :=
          List.mem_map_of_mem _ hv1
        rw [hd] at hv2
        have hc : ((db.items.filter (fun x => x.group_id == gid)).map
            (fun x => x.id)).contains s.item_id = true := List.elem_iff.2 hv2
        rw [hc] at hpred
        exact absurd hpred (by decide)
      refine ⟨it, List.mem_filter.2 ⟨hit, hitg⟩, hd⟩
    · intro it hit
      rcases List.mem_filter.1 hit with ⟨him, hpred⟩
      rcases hno.2 it him with ⟨g, hg, hgid⟩
      refine ⟨g, List.mem_filter.2 ⟨hg, ?_⟩, hgid⟩
      rw [hgid]
      exact hpred
  | addItem ct ctext cblob ptext pblob created gid =>
    show NoOrphans ((add_item db ct ctext cblob ptext pblob created gid cap).1)
    unfold add_item
    dsimp only
    apply noOrphans_prune
    constructor
    · intro s hs
      rcases hno.1 s hs with ⟨it, hit, hd⟩
      exact ⟨it, List.mem_append_left _ hit, hd⟩
    · intro it hit
      rcases List.mem_append.1 hit with h | h
      · exact hno.2 it h
      · rcases List.mem_singleton.1 h with rfl
        rcases hv with ⟨g, hg, hgid⟩
        exact ⟨g, hg, hgid⟩
  | setPinned i p now =>
    show NoOrphans (set_pinned db i p now cap)
    unfold set_pinned
    dsimp only
    cases db.items.find? (fun it => it.id == i) with
    | none =>
      exact noOrphans_map_simple db _ (fun it => by split <;> rfl)
        (fun it => by split <;> rfl) hno
    | some it0 =>
      cases p with
      | true =>
        exact noOrphans_map_simple db _ (fun it => by split <;> rfl)
          (fun it => by split <;> rfl) hno
      | false =>
        exact noOrphans_prune _ _ _ (noOrphans_map_simple db _
          (fun it => by split <;> rfl) (fun it => by split <;> rfl) hno)
  | moveItem i gid =>
    show NoOrphans (move_item_to_group db i gid cap)
    unfold move_item_to_group
    dsimp only
    apply noOrphans_prune
    constructor
    · intro s hs
      rcases hno.1 s hs with ⟨it, hit, hd⟩
      refine ⟨_, List.mem_map_of_mem
        (fun it => if it.id == i then { it with group_id := gid } else it) hit, ?_⟩
      show (if (it.id == i) = true then { it with group_id := gid } else it).id
        = s.item_id
      split
      · exact hd
      · exact hd
    · intro it hit
      rcases List.mem_map.1 hit with ⟨u, hu, rfl⟩
      by_cases h : (u.id == i) = true
      · rw [if_pos h]
        rcases hv with ⟨g, hg, hgid⟩
        exact ⟨g, hg, hgid⟩
      · rw [if_neg h]
        exact hno.2 u hu
  | touchItem i ts =>
    show NoOrphans (touch_item_last_used db i ts)
    unfold touch_item_last_used
    exact noOrphans_map_simple db _ (fun it => by split <;> rfl)
      (fun it => by split <;> rfl) hno
  | deleteItem i => exact noOrphans_delete_item db i hno
  | addSubitem i text icons tag now =>
    show NoOrphans ((add_subitem db i text icons tag now).1)
    unfold add_subitem
    dsimp only
    constructor
    · intro s hs
      rcases List.mem_append.1 hs with h | h
      · exact hno.1 s h
      · rcases List.mem_singleton.1 h with rfl
        rcases hv with ⟨it, hit, hd⟩
        exact ⟨it, hit, hd⟩
    · intro it hit
      exact hno.2 it hit
  | deleteSubitem sid =>
    show NoOrphans (delete_subitem db sid)
    unfold delete_subitem
    split
    · exact hno
    · constructor
      · intro s hs
        rcases List.mem_filter.1 hs with ⟨hsm, _⟩
        exact hno.1 s hsm
      · intro it hit
        exact hno.2 it hit
  | deleteSubitemsByTag i tag =>
    show NoOrphans (delete_subitems_by_tag db i tag)
    unfold delete_subitems_by_tag
    split
    · exact hno
    · constructor
      · intro s hs
        rcases List.mem_filter.1 hs with ⟨hsm, _⟩
        exact hno.1 s hsm
      · intro it hit
        exact hno.2 it hit
  | updatePreview i ptext pblob =>
    cases ptext with
    | none => exact hno
    | some t =>
      exact noOrphans_map_simple db _ (fun it => by split <;> rfl)
        (fun it => by split <;> rfl) hno

theorem noOrphans_applyOps (cap : Int) (db : DB) (ops : List Op)
    (hno : NoOrphans db) (hv : ValidTrace cap db ops) :
    NoOrphans (applyOps cap db ops) := by
  induction ops generalizing db with
  | nil => exact hno
  | cons op ops ih =>
    exact ih _ (noOrphans_applyOp cap db op hno hv.1) hv.2

/-- C6 amended: after `delete_item i` no subitem of `i` remains; after
`delete_group g` no item of `g` and no subitem of any former item of `g`
remains; and referential integrity holds along every call sequence whose
`add_item`/`move_item_to_group` target an existing group and whose
`add_subitem` targets an existing item — the storage layer itself never
enforces these foreign keys, so unguarded creation calls can orphan rows
(see the counterexample). -/
theorem claim_C6_cascade_amended :
    (∀ (db : DB) (i : Nat), ∀ s ∈ (delete_item db i).subitems, s.item_id ≠ i) ∧
    (∀ (db : DB) (gid : Nat),
      (∀ it ∈ (delete_group db gid).items, it.group_id ≠ gid) ∧
      (∀ s ∈ (delete_group db gid).subitems, ∀ it ∈ db.items,
        it.group_id = gid → s.item_id ≠ it.id)) ∧
    (∀ (cap : Int) (db : DB) (ops : List Op), NoOrphans db →
      ValidTrace cap db ops → NoOrphans (applyOps cap db ops)) := by
  refine ⟨?_, ?_, noOrphans_applyOps⟩
  · intro db i s hs
    rcases List.mem_filter.1 hs with ⟨_, hpred⟩
    simpa using hpred
  · intro db gid
    constructor
    · intro it hit
      rcases List.mem_filter.1 hit with ⟨_, hpred⟩
      simpa using hpred
    · intro s hs it hit hgid heq
      rcases List.mem_filter.1 hs with ⟨_, hpred⟩
      have hv1 : it ∈ db.items.filter (fun x => x.group_id == gid) :=
        List.mem_filter.2 ⟨hit, by simp [hgid]⟩
      have hv2 : it.id ∈ (db.items.filter
          (fun x => x.group_id == gid)).map (fun x => x.id) :=
        List.mem_map_of_mem _ hv1
      rw [← heq] at hv2
      have hc : ((db.items.filter (fun x => x.group_id == gid)).map
          (fun x => x.id)).contains s.item_id = true := List.elem_iff.2 hv2
      rw [hc] at hpred
      exact absurd hpred (by decide)

theorem claim_C6_cascade_amended_witness :
    NoOrphans (applyOps 300 freshDB
      [Op.addItem "text" "x" none none none 1 1,
       Op.addSubitem 1 "u" none (some "url") 2,
       Op.deleteItem 1]) :=
  claim_C6_cascade_amended.2.2 300 freshDB
    [Op.addItem "text" "x" none none none 1 1,
     Op.addSubitem 1 "u" none (some "url") 2,
     Op.deleteItem 1] (by decide) (by decide)

end Storage

namespace Storage

theorem lexLe5_total (x y : Int × Int × Int × Int × Int) :
    lexLe5 x y ∨ lexLe5 y x := by
  obtain ⟨a1, a2, a3, a4, a5⟩ := x
  obtain ⟨b1, b2, b3, b4, b5⟩ := y
  simp only [lexLe5]
  omega

theorem lexLe5_trans (x y z : Int × Int × Int × Int × Int)
    (h1 : lexLe5 x y) (h2 : lexLe5 y z) : lexLe5 x z := by
  obtain ⟨a1, a2, a3, a4, a5⟩ := x
  obtain ⟨b1, b2, b3, b4, b5⟩ := y
  obtain ⟨c1, c2, c3, c4, c5⟩ := z
  simp only [lexLe5] at h1 h2 ⊢
  omega

theorem itemLe_total (a b : Item) : itemLe a b ∨ itemLe b a :=
  lexLe5_total _ _

theorem itemLe_trans (a b c : Item) (h1 : itemLe a b) (h2 : itemLe b c) :
    itemLe a c :=
  lexLe5_trans _ _ _ h1 h2

theorem selectRow_id (po : Bool) (it : Item) : (selectRow po it).id = it.id := by
  cases po <;> rfl

theorem selectRow_pinned (po : Bool) (it : Item) :
    (selectRow po it).pinned = it.pinned := by
  cases po <;> rfl

theorem selectRow_pinned_at (po : Bool) (it : Item) :
    (selectRow po it).pinned_at = it.pinned_at := by
  cases po <;> rfl

theorem selectRow_created_at (po : Bool) (it : Item) :
    (selectRow po it).created_at = it.created_at := by
  cases po <;> rfl

theorem selectRow_last_used_at (po : Bool) (it : Item) :
    (selectRow po it).last_used_at = it.last_used_at := by
  cases po <;> rfl

theorem itemLe_imp (a b : Item) (h : itemLe a b) :
    (a.pinned = true ∧ b.pinned = false) ∨
    (a.pinned = true ∧ b.pinned = true ∧
      (coalesce a.pinned_at a.created_at < coalesce b.pinned_at b.created_at ∨
        (coalesce a.pinned_at a.created_at = coalesce b.pinned_at b.created_at ∧
          a.id ≤ b.id))) ∨
    (a.pinned = false ∧ b.pinned = false ∧
      (coalesce b.last_used_at b.created_at < coalesce a.last_used_at a.created_at ∨
        (coalesce b.last_used_at b.created_at = coalesce a.last_used_at a.created_at ∧
          b.id ≤ a.id))) := by
  unfold itemLe lexLe5 sortKey useTime at h
  cases hpa : a.pinned <;> cases hpb : b.pinned <;>
    simp [hpa, hpb] at h ⊢ <;> omega

theorem itemLe_rowOrder (po : Bool) (a b : Item) (h : itemLe a b) :
    rowOrder (selectRow po a) (selectRow po b) := by
  have h2 := itemLe_imp a b h
  unfold rowOrder pinTime rowUseTime
  simp only [selectRow_pinned, selectRow_id, selectRow_pinned_at,
    selectRow_created_at, selectRow_last_used_at]
  exact h2

theorem rowOrder_antisymm_ids (a b : Row) (h1 : rowOrder a b)
    (h2 : rowOrder b a) : a.id = b.id := by
  unfold rowOrder pinTime rowUseTime at h1 h2
  cases hpa : a.pinned <;> cases hpb : b.pinned <;>
    simp [hpa, hpb] at h1 h2 <;> omega

/-- C2: ordering contract of `list_items`.  For a stored table with
distinct item ids, `list_items` returns exactly the filtered items (as a
permutation of their projections), in an order where every earlier row
relates to every later row by `rowOrder` — pinned rows first, pinned rows
ascending by pin time (`COALESCE(pinned_at, created_at)`, which is
`pinned_at` whenever set) with ties broken by ascending id, unpinned rows
descending by `COALESCE(last_used_at, created_at)` with ties broken by
descending id — and this output is the unique such arrangement, i.e. the
result is deterministic. -/
theorem claim_C2_list_items_ordering (db : DB) (group_id : Option Nat)
    (query : Option String) (po : Bool)
    (hnd : (db.items.map (fun it => it.id)).Nodup) :
    ((list_items db group_id query po).Perm
      ((db.items.filter (itemPasses group_id query)).map (selectRow po))) ∧
    ((list_items db group_id query po).Pairwise rowOrder) ∧
    (∀ l : List Row, l.Perm (list_items db group_id query po) →
      l.Pairwise rowOrder → l = list_items db group_id query po) := by
  have hperm : (List.insertionSort itemLe
      (db.items.filter (itemPasses group_id query))).Perm
      (db.items.filter (itemPasses group_id query)) :=
    List.perm_insertionSort _ _
  have hpair_out : (list_items db group_id query po).Pairwise rowOrder := by
    unfold list_items
    rw [List.pairwise_map]
    haveI : IsTotal Item itemLe := ⟨itemLe_total⟩
    haveI : IsTrans Item itemLe := ⟨itemLe_trans⟩
    have hs : List.Sorted itemLe (List.insertionSort itemLe
        (db.items.filter (itemPasses group_id query))) :=
      List.sorted_insertionSort itemLe _
    exact List.Pairwise.imp (fun hab => itemLe_rowOrder po _ _ hab) hs
  have houtids : ((list_items db group_id query po).map
      (fun r => r.id)).Nodup := by
    unfold list_items
    rw [List.map_map]
    have hcomp : ((fun r => r.id) ∘ selectRow po) = fun it => it.id :=
      funext (fun it => selectRow_id po it)
    rw [hcomp]
    refine (hperm.map (fun it => it.id)).nodup_iff.2 ?_
    exact hnd.sublist ((List.filter_sublist _).map _)
  refine ⟨hperm.map _, hpair_out, ?_⟩
  intro l hperm_l hpair_l
  have hpair_out2 : (list_items db group_id query po).Pairwise
      (fun x y : Row => rowOrder x y ∧ x.id ≠ y.id) :=
    hpair_out.and (List.pairwise_map.1 houtids)
  have hlids : (l.map (fun r => r.id)).Nodup :=
    (hperm_l.map (fun r => r.id)).nodup_iff.2 houtids
  have hpair_l2 : l.Pairwise (fun x y : Row => rowOrder x y ∧ x.id ≠ y.id) :=
    hpair_l.and (List.pairwise_map.1 hlids)
  haveI : IsAntisymm Row (fun x y : Row => rowOrder x y ∧ x.id ≠ y.id) :=
    ⟨fun x y h1 h2 => absurd (rowOrder_antisymm_ids x y h1.1 h2.1) h1.2⟩
  exact List.eq_of_perm_of_sorted hperm_l hpair_l2 hpair_out2

theorem claim_C2_list_items_ordering_witness :
    (list_items (bulkDB 3) (some 1) none false).Pairwise rowOrder :=
  (claim_C2_list_items_ordering (bulkDB 3) (some 1) none false
    (by decide)).2.1

end Storage
